import Mathlib

/-!
Verification of `multical/tables.py` (pose-table core of the multical
multi-camera calibration library).

The Python source is shallowly embedded below:

* numpy 1-D arrays become Lean `List`s; an N-dimensional table of records
  becomes either a structure of parallel lists (1-D case) or a structure of
  index functions together with an explicit shape (N-D case);
* a 4x4 homogeneous pose matrix becomes `Matrix (Fin 4) (Fin 4) ℚ`
  (exact arithmetic in place of floating point);
* the external robust aligner `matrix.align_transforms_robust` and the
  spanning-structure chooser `graph.select_pairs` live in modules that are
  not part of the verified source, so the embedded functions take them as
  explicit function parameters;
* Python mutation (`dense[ids] = values`, `error[~mask] = 0`) becomes an
  explicit recursion over the list of updates;
* a Python `assert` or a `KeyError` becomes an `Option` result (`none` means
  the call raised).
-/

namespace Multical

/-- 4x4 homogeneous transform, the element type of every `poses` field. -/
abbrev Mat := Matrix (Fin 4) (Fin 4) ℚ

/-! ### List update helpers (numpy fancy assignment `dense[ids] = values`) -/

/-- Sequential elementwise assignment `dense[ids] = values`:
write `values[k]` at position `ids[k]` for `k = 0, 1, ...`
(arguments ordered `ids values dense` for structural recursion). -/
def writeAll {α : Type} : List Nat → List α → List α → List α
  | [], _, dense => dense
  | _ :: _, [], dense => dense
  | i :: is, v :: vs, dense => writeAll is vs (dense.set i v)

/-- Broadcast boolean assignment `mask[ids] = True`. -/
def setTrueAll : List Nat → List Bool → List Bool
  | [], mask => mask
  | i :: is, mask => setTrueAll is (mask.set i true)

theorem getD_set_ne {α : Type} (l : List α) (i j : Nat) (v d : α) (h : i ≠ j) :
    (l.set i v).getD j d = l.getD j d := by
  induction l generalizing i j with
  | nil => rfl
  | cons a t ih =>
    cases i with
    | zero =>
      cases j with
      | zero => exact absurd rfl h
      | succ j => rfl
    | succ i =>
      cases j with
      | zero => rfl
      | succ j => exact ih i j (fun hij => h (by omega))

theorem getD_set_eq {α : Type} (l : List α) (i : Nat) (v d : α) (h : i < l.length) :
    (l.set i v).getD i d = v := by
  induction l generalizing i with
  | nil => simp at h
  | cons a t ih =>
    cases i with
    | zero => rfl
    | succ i => exact ih i (by simpa using h)

theorem getD_replicate {α : Type} (n i : Nat) (x d : α) (h : i < n) :
    (List.replicate n x).getD i d = x := by
  induction n generalizing i with
  | zero => omega
  | succ n ih =>
    cases i with
    | zero => rfl
    | succ i => exact ih i (by omega)

theorem getD_oob {α : Type} (l : List α) (i : Nat) (d : α) (h : l.length ≤ i) :
    l.getD i d = d := by
  induction l generalizing i with
  | nil => cases i <;> rfl
  | cons a t ih =>
    cases i with
    | zero => simp at h
    | succ i => exact ih i (by simpa using h)

theorem writeAll_length {α : Type} : ∀ (ids : List Nat) (vs l : List α),
    (writeAll ids vs l).length = l.length
  | [], _, _ => rfl
  | _ :: _, [], _ => rfl
  | i :: is, v :: vs, l => by
    show (writeAll is vs (l.set i v)).length = l.length
    rw [writeAll_length is vs (l.set i v), List.length_set]

theorem writeAll_getD_not_mem {α : Type} : ∀ (ids : List Nat) (vs l : List α)
    (i : Nat) (d : α), i ∉ ids → (writeAll ids vs l).getD i d = l.getD i d
  | [], _, _, _, _, _ => rfl
  | _ :: _, [], _, _, _, _ => rfl
  | j :: js, v :: vs, l, i, d, h => by
    have hji : j ≠ i := fun hji => h (hji ▸ List.mem_cons_self j js)
    have hi : i ∉ js := fun hm => h (List.mem_cons_of_mem j hm)
    show (writeAll js vs (l.set j v)).getD i d = l.getD i d
    rw [writeAll_getD_not_mem js vs _ i d hi, getD_set_ne l j i v d hji]

theorem writeAll_getD_pos {α : Type} : ∀ (ids : List Nat) (vs l : List α)
    (d w : α), ids.Nodup → (∀ i ∈ ids, i < l.length) → vs.length = ids.length →
    ∀ k, k < ids.length → (writeAll ids vs l).getD (ids.getD k 0) d = vs.getD k w
  | [], _, _, _, _, _, _, _, k, hk => by simp at hk
  | _ :: _, [], _, _, _, _, _, hlen, _, _ => by simp at hlen
  | j :: js, v :: vs, l, d, w, hnd, hlt, hlen, 0, hk => by
    have hj : j ∉ js := (List.nodup_cons.mp hnd).1
    show (writeAll js vs (l.set j v)).getD j d = v
    rw [writeAll_getD_not_mem js vs _ j d hj]
    exact getD_set_eq l j v d (hlt j (List.mem_cons_self j js))
  | j :: js, v :: vs, l, d, w, hnd, hlt, hlen, k + 1, hk => by
    show (writeAll js vs (l.set j v)).getD (js.getD k 0) d = vs.getD k w
    refine writeAll_getD_pos js vs (l.set j v) d w (List.nodup_cons.mp hnd).2
      (fun i hi => ?_) (by simpa using hlen) k (by simpa using hk)
    rw [List.length_set]
    exact hlt i (List.mem_cons_of_mem j hi)

theorem setTrueAll_length : ∀ (ids : List Nat) (mask : List Bool),
    (setTrueAll ids mask).length = mask.length
  | [], _ => rfl
  | i :: is, mask => by
    show (setTrueAll is (mask.set i true)).length = mask.length
    rw [setTrueAll_length is (mask.set i true), List.length_set]

theorem setTrueAll_getD_not_mem : ∀ (ids : List Nat) (mask : List Bool) (i : Nat),
    i ∉ ids → (setTrueAll ids mask).getD i false = mask.getD i false
  | [], _, _, _ => rfl
  | j :: js, mask, i, h => by
    have hji : j ≠ i := fun hji => h (hji ▸ List.mem_cons_self j js)
    have hi : i ∉ js := fun hm => h (List.mem_cons_of_mem j hm)
    show (setTrueAll js (mask.set j true)).getD i false = mask.getD i false
    rw [setTrueAll_getD_not_mem js _ i hi, getD_set_ne mask j i true false hji]

theorem setTrueAll_stays_true : ∀ (js : List Nat) (m : List Bool) (i : Nat),
    m.getD i false = true → (setTrueAll js m).getD i false = true
  | [], _, _, hm => hm
  | j :: js, m, i, hm => by
    show (setTrueAll js (m.set j true)).getD i false = true
    by_cases hji : j = i
    · subst hji
      have hlt : j < m.length := by
        by_contra hge
        rw [getD_oob m j false (by omega)] at hm
        exact Bool.false_ne_true hm
      exact setTrueAll_stays_true js _ j (getD_set_eq m j true false hlt)
    · exact setTrueAll_stays_true js _ i ((getD_set_ne m j i true false hji).trans hm)

theorem setTrueAll_getD_mem : ∀ (ids : List Nat) (mask : List Bool) (i : Nat),
    i ∈ ids → i < mask.length → (setTrueAll ids mask).getD i false = true
  | [], _, i, hmem, _ => absurd hmem (List.not_mem_nil i)
  | j :: js, mask, i, hmem, hlt => by
    show (setTrueAll js (mask.set j true)).getD i false = true
    by_cases hji : j = i
    · subst hji
      exact setTrueAll_stays_true js _ j (getD_set_eq mask j true false hlt)
    · have hi : i ∈ js := by
        rcases List.mem_cons.mp hmem with h | h
        · exact absurd h.symm hji
        · exact h
      exact setTrueAll_getD_mem js (mask.set j true) i hi
        (by rw [List.length_set]; exact hlt)

/-! ### `fill_sparse` and `fill_sparse_tile` -/

/-- `fill_sparse(n, values, ids)`: zero-filled dense array of length `n`,
overwritten at `ids` by `values`, plus the boolean mask set at `ids`. -/
def fill_sparse {α : Type} [Zero α] (n : Nat) (values : List α) (ids : List Nat) :
    List α × List Bool :=
  (writeAll ids values (List.replicate n 0),
   setTrueAll ids (List.replicate n false))

/-- `fill_sparse_tile(n, values, ids, tile)`: like `fill_sparse` but the
default entry is a copy of `tile` instead of zero. -/
def fill_sparse_tile {α : Type} (n : Nat) (values : List α) (ids : List Nat) (tile : α) :
    List α × List Bool :=
  (writeAll ids values (List.replicate n tile),
   setTrueAll ids (List.replicate n false))

/-- Claim C7: for every `n`, `values` and index list `ids` (possibly empty,
well-formed: indices below `n`, no duplicate targets, one value per index),
`fill_sparse n values ids` returns a dense array of length `n` that equals the
corresponding entry of `values` at every index in `ids` and zero at every
index not in `ids`, together with a boolean mask of length `n` that is true
exactly at the indices in `ids`.  (The embedding is a pure function, so
absence of side effects outside the returned pair is inherent.) -/
theorem fill_sparse_spec {α : Type} [Zero α] (n : Nat) (values : List α)
    (ids : List Nat) (hnd : ids.Nodup) (hlt : ∀ i ∈ ids, i < n)
    (hlen : values.length = ids.length) :
    (fill_sparse n values ids).1.length = n ∧
    (fill_sparse n values ids).2.length = n ∧
    (∀ k, k < ids.length →
      (fill_sparse n values ids).1.getD (ids.getD k 0) 0 = values.getD k 0) ∧
    (∀ i, i ∉ ids → (fill_sparse n values ids).1.getD i 0 = 0) ∧
    (∀ i, (fill_sparse n values ids).2.getD i false = true ↔ i ∈ ids) := by
  refine ⟨?_, ?_, ?_, ?_, ?_⟩
  · show (writeAll ids values (List.replicate n 0)).length = n
    rw [writeAll_length, List.length_replicate]
  · show (setTrueAll ids (List.replicate n false)).length = n
    rw [setTrueAll_length, List.length_replicate]
  · intro k hk
    show (writeAll ids values (List.replicate n 0)).getD (ids.getD k 0) 0 =
      values.getD k 0
    exact writeAll_getD_pos ids values _ 0 0 hnd
      (fun i hi => by rw [List.length_replicate]; exact hlt i hi) hlen k hk
  · intro i hi
    show (writeAll ids values (List.replicate n 0)).getD i 0 = 0
    rw [writeAll_getD_not_mem ids values _ i 0 hi]
    by_cases hin : i < n
    · exact getD_replicate n i 0 0 hin
    · exact getD_oob _ i 0 (by rw [List.length_replicate]; omega)
  · intro i
    show (setTrueAll ids (List.replicate n false)).getD i false = true ↔ i ∈ ids
    constructor
    · intro htrue
      by_contra hni
      rw [setTrueAll_getD_not_mem ids _ i hni] at htrue
      by_cases hin : i < n
      · rw [getD_replicate n i false false hin] at htrue
        exact Bool.false_ne_true htrue
      · rw [getD_oob _ i false (by rw [List.length_replicate]; omega)] at htrue
        exact Bool.false_ne_true htrue
    · intro hmem
      exact setTrueAll_getD_mem ids _ i hmem
        (by rw [List.length_replicate]; exact hlt i hmem)

/-- Witness for C7 at a concrete input: `n = 5`, `values = [3, 4]`,
`ids = [1, 3]` over the integers. -/
theorem fill_sparse_spec_witness :
    (fill_sparse 5 ([3, 4] : List ℤ) [1, 3]).1.length = 5 ∧
    (fill_sparse 5 ([3, 4] : List ℤ) [1, 3]).2.length = 5 ∧
    (∀ k, k < ([1, 3] : List Nat).length →
      (fill_sparse 5 ([3, 4] : List ℤ) [1, 3]).1.getD (([1, 3] : List Nat).getD k 0) 0 =
        ([3, 4] : List ℤ).getD k 0) ∧
    (∀ i, i ∉ ([1, 3] : List Nat) →
      (fill_sparse 5 ([3, 4] : List ℤ) [1, 3]).1.getD i 0 = 0) ∧
    (∀ i, (fill_sparse 5 ([3, 4] : List ℤ) [1, 3]).2.getD i false = true ↔
      i ∈ ([1, 3] : List Nat)) :=
  fill_sparse_spec 5 [3, 4] [1, 3] (by decide) (by decide) (by decide)

/-! ### 2-D pose tables and `pattern_overlaps` -/

/-- A 2-D pose table (`camera x frame`): the view of a `Table` along the axis
chosen by `pattern_overlaps`/`estimate_relative_poses` (`nrows` nodes on the
chosen axis, `nframes` entries per node), with the fields used by the pose
chainer (`poses`, `valid_poses`, `num_points`). -/
structure PoseTable2 where
  nrows : Nat
  nframes : Nat
  poses : Nat → Nat → Mat
  valid_poses : Nat → Nat → Bool
  num_points : Nat → Nat → Nat

/-- The overlap weight of the node pair `(i, j)`: the body of the inner loop
of `pattern_overlaps`, `np.sum(has_pose.astype(np.float32) * weight)` with
`has_pose = valid_i & valid_j` and `weight = np.min([num_i, num_j], axis=0)`
(exact arithmetic in place of float32). -/
def pairOverlap (t : PoseTable2) (i j : Nat) : Nat :=
  ((List.range t.nframes).map fun f =>
    (if t.valid_poses i f && t.valid_poses j f then 1 else 0) *
      min (t.num_points i f) (t.num_points j f)).sum

/-- The double assignment `overlaps[i, j] = overlaps[j, i] = w` on a matrix
represented as an index function. -/
def updSym (m : Nat → Nat → Nat) (i j w : Nat) : Nat → Nat → Nat :=
  fun a b => if (a = i ∧ b = j) ∨ (a = j ∧ b = i) then w else m a b

/-- The iteration order of the double loop
`for i in range(n): for j in range(i+1, n)`. -/
def pairList (n : Nat) : List (Nat × Nat) :=
  (List.range n).flatMap fun i =>
    (List.range' (i + 1) (n - (i + 1))).map fun j => (i, j)

/-- One iteration of the inner loop body of `pattern_overlaps`. -/
def ovStep (t : PoseTable2) (m : Nat → Nat → Nat) (p : Nat × Nat) : Nat → Nat → Nat :=
  updSym m p.1 p.2 (pairOverlap t p.1 p.2)

/-- `pattern_overlaps(table, axis)`: start from `np.zeros([n, n])` and run the
double loop filling both `[i, j]` and `[j, i]` with the pair weight. -/
def pattern_overlaps (t : PoseTable2) : Nat → Nat → Nat :=
  (pairList t.nrows).foldl (ovStep t) (fun _ _ => 0)

theorem mem_pairList (n a b : Nat) : (a, b) ∈ pairList n ↔ a < b ∧ b < n := by
  simp only [pairList, List.mem_flatMap, List.mem_map, List.mem_range,
    List.mem_range'_1, Prod.mk.injEq]
  constructor
  · rintro ⟨i, hi, j, hj, hia, hjb⟩
    omega
  · rintro ⟨hab, hbn⟩
    exact ⟨a, by omega, b, by omega, rfl, rfl⟩

theorem pairList_fst_lt_snd (n : Nat) : ∀ p ∈ pairList n, p.1 < p.2 := by
  intro p hp
  obtain ⟨a, b⟩ := p
  exact ((mem_pairList n a b).mp hp).1

theorem pairList_nodup (n : Nat) : (pairList n).Nodup := by
  rw [pairList, List.nodup_flatMap]
  constructor
  · intro i _
    exact (List.nodup_range' (i + 1) (n - (i + 1))).map
      (fun a b hab => by simpa using hab)
  · have : ∀ i₁ i₂ : Nat, i₁ ≠ i₂ →
        (Function.onFun List.Disjoint fun i =>
          (List.range' (i + 1) (n - (i + 1))).map fun j => (i, j)) i₁ i₂ := by
      intro i₁ i₂ hne p hp1 hp2
      simp only [Function.onFun, List.mem_map] at hp1 hp2
      obtain ⟨j₁, _, h1⟩ := hp1
      obtain ⟨j₂, _, h2⟩ := hp2
      exact hne (by rw [← h1] at h2; exact (Prod.mk.injEq .. ▸ h2).1.symm)
    exact List.Pairwise.imp_of_mem (fun _ _ h => h) ((List.nodup_range n).pairwise_of_forall_ne
      (fun i₁ h₁ i₂ h₂ hne => this i₁ i₂ hne))

theorem pairOverlap_comm (t : PoseTable2) (i j : Nat) :
    pairOverlap t i j = pairOverlap t j i := by
  unfold pairOverlap
  congr 1
  refine List.map_congr_left fun f _ => ?_
  rw [Bool.and_comm, Nat.min_comm]

theorem foldl_ovStep_not_mem (t : PoseTable2) :
    ∀ (l : List (Nat × Nat)) (m : Nat → Nat → Nat) (a b : Nat),
    (∀ p ∈ l, ¬(p.1 = a ∧ p.2 = b) ∧ ¬(p.1 = b ∧ p.2 = a)) →
    l.foldl (ovStep t) m a b = m a b
  | [], _, _, _, _ => rfl
  | p :: l, m, a, b, h => by
    show l.foldl (ovStep t) (ovStep t m p) a b = m a b
    rw [foldl_ovStep_not_mem t l _ a b (fun q hq => h q (List.mem_cons_of_mem p hq))]
    have hp := h p (List.mem_cons_self p l)
    simp only [ovStep, updSym]
    rw [if_neg]
    tauto

theorem foldl_ovStep_mem (t : PoseTable2) :
    ∀ (l : List (Nat × Nat)) (m : Nat → Nat → Nat) (a b : Nat),
    a < b → (a, b) ∈ l → l.Nodup → (∀ p ∈ l, p.1 < p.2) →
    l.foldl (ovStep t) m a b = pairOverlap t a b ∧
    l.foldl (ovStep t) m b a = pairOverlap t a b
  | [], _, _, _, _, hmem, _, _ => absurd hmem (List.not_mem_nil _)
  | p :: l, m, a, b, hab, hmem, hnd, hord => by
    show l.foldl (ovStep t) (ovStep t m p) a b = _ ∧
      l.foldl (ovStep t) (ovStep t m p) b a = _
    by_cases hpab : p = (a, b)
    · subst hpab
      have hnotin : (a, b) ∉ l := (List.nodup_cons.mp hnd).1
      have hfree : ∀ q ∈ l, ¬(q.1 = a ∧ q.2 = b) ∧ ¬(q.1 = b ∧ q.2 = a) := by
        intro q hq
        have hqord := hord q (List.mem_cons_of_mem _ hq)
        constructor
        · rintro ⟨h1, h2⟩
          exact hnotin (by
            have : q = (a, b) := Prod.ext h1 h2
            exact this ▸ hq)
        · rintro ⟨h1, h2⟩
          omega
      constructor
      · rw [foldl_ovStep_not_mem t l _ a b hfree]
        simp [ovStep, updSym]
      · rw [foldl_ovStep_not_mem t l _ b a
          (fun q hq => ⟨(hfree q hq).2, (hfree q hq).1⟩)]
        simp [ovStep, updSym]
    · have hmem' : (a, b) ∈ l := by
        rcases List.mem_cons.mp hmem with h | h
        · exact absurd h.symm hpab
        · exact h
      exact foldl_ovStep_mem t l (ovStep t m p) a b hab hmem'
        (List.nodup_cons.mp hnd).2
        (fun q hq => hord q (List.mem_cons_of_mem p hq))

/-- Claim C3: for a pose table with `n` nodes along the chosen axis, the
overlap matrix returned by `pattern_overlaps` is symmetric
(`overlap[i,j] = overlap[j,i]`), has zero diagonal, and each off-diagonal
entry equals the sum over frames of `(valid_i AND valid_j) *
min(num_points_i, num_points_j)` (that sum is `pairOverlap`). -/
theorem pattern_overlaps_spec (t : PoseTable2) (i j : Nat)
    (hi : i < t.nrows) (hj : j < t.nrows) :
    pattern_overlaps t i j = pattern_overlaps t j i ∧
    pattern_overlaps t i i = 0 ∧
    (i ≠ j → pattern_overlaps t i j = pairOverlap t i j) := by
  have diag : ∀ a, pattern_overlaps t a a = 0 := by
    intro a
    unfold pattern_overlaps
    rw [foldl_ovStep_not_mem]
    intro p hp
    have := pairList_fst_lt_snd t.nrows p hp
    constructor <;> rintro ⟨h1, h2⟩ <;> omega
  have off : ∀ a b, a < b → b < t.nrows →
      pattern_overlaps t a b = pairOverlap t a b ∧
      pattern_overlaps t b a = pairOverlap t a b := by
    intro a b hab hbn
    unfold pattern_overlaps
    exact foldl_ovStep_mem t _ _ a b hab ((mem_pairList _ a b).mpr ⟨hab, hbn⟩)
      (pairList_nodup _) (pairList_fst_lt_snd _)
  refine ⟨?_, diag i, ?_⟩
  · rcases lt_trichotomy i j with h | h | h
    · obtain ⟨h1, h2⟩ := off i j h hj
      rw [h1, h2]
    · subst h
      rfl
    · obtain ⟨h1, h2⟩ := off j i h hi
      rw [h1, h2]
  · intro hne
    rcases lt_trichotomy i j with h | h | h
    · exact (off i j h hj).1
    · exact absurd h hne
    · rw [(off j i h hi).2, pairOverlap_comm]

/-- Concrete 2x2-frame table for the C3 witness: node 1 invalid in frame 1. -/
def tableC3 : PoseTable2 :=
  ⟨2, 2, fun _ _ => 1, fun i f => !(i = 1 && f = 1), fun i f => 3 + i + f⟩

/-- Witness for C3 at a concrete input. -/
theorem pattern_overlaps_spec_witness :
    pattern_overlaps tableC3 0 1 = pattern_overlaps tableC3 1 0 ∧
    pattern_overlaps tableC3 0 0 = 0 ∧
    (0 ≠ 1 → pattern_overlaps tableC3 0 1 = pairOverlap tableC3 0 1) :=
  pattern_overlaps_spec tableC3 0 1 (by decide) (by decide)

/-! ### The pose dictionary and the chain walk of `estimate_relative_poses` -/

/-- Association-list embedding of the Python dict `pose_dict`: lookup. -/
def dlookup : List (Nat × Mat) → Nat → Option Mat
  | [], _ => none
  | (k, v) :: rest, key => if key = k then some v else dlookup rest key

/-- Association-list embedding of the Python dict `pose_dict`:
`pose_dict[k] = v` (update in place, or append a fresh key). -/
def dinsert : List (Nat × Mat) → Nat → Mat → List (Nat × Mat)
  | [], k, v => [(k, v)]
  | (a, b) :: rest, k, v =>
    if k = a then (k, v) :: rest else (a, b) :: dinsert rest k v

/-- The key set of the dict. -/
def dkeys (d : List (Nat × Mat)) : List Nat := d.map Prod.fst

/-- `parent`-before-`child` (topological) ordering of the selected edges,
starting from the already-seeded keys `ks`: each parent is already a key when
its edge is processed. -/
def topoOk : List Nat → List (Nat × Nat) → Bool
  | _, [] => true
  | ks, (p, c) :: rest => decide (p ∈ ks) && topoOk (c :: ks) rest

/-- The row of all pose samples of node `i` (every frame, valid or not):
`table._index_select(i, axis=axis).poses`. -/
def rowPoses (t : PoseTable2) (i : Nat) : List Mat :=
  (List.range t.nframes).map fun f => t.poses i f

/-- `estimate_transform(table, i, j, axis)`: apply the external robust
aligner `matrix.align_transforms_robust` (the parameter `align`) to the two
full rows of poses — the source performs no masking by `valid_poses` here. -/
def estimate_transform (align : List Mat → List Mat → Mat) (t : PoseTable2)
    (i j : Nat) : Mat :=
  align (rowPoses t i) (rowPoses t j)

/-- The loop `for parent, child in pairs: pose_dict[child] = t @ pose_dict[parent]`
of `estimate_relative_poses`; a missing parent key is Python's `KeyError`,
i.e. `none`. -/
def chainPoses (est : Nat → Nat → Mat) :
    List (Nat × Nat) → List (Nat × Mat) → Option (List (Nat × Mat))
  | [], d => some d
  | (parent, child) :: rest, d =>
    match dlookup d parent with
    | some p => chainPoses est rest (dinsert d child (est parent child * p))
    | none => none

/-- `fill_poses(pose_dict, n)`: sorted keys, their poses in key order,
densified by `fill_sparse_tile` with the identity tile `np.eye(4)`. -/
def fill_poses (d : List (Nat × Mat)) (n : Nat) : List Mat × List Bool :=
  let valid_ids := List.insertionSort (· ≤ ·) (dkeys d)
  fill_sparse_tile n (valid_ids.map fun k => (dlookup d k).getD 1) valid_ids 1

/-- `estimate_relative_poses(table, axis, hop_penalty)` with the external
`graph.select_pairs` passed as the parameter `select_pairs`. -/
def estimate_relative_poses (align : List Mat → List Mat → Mat)
    (select_pairs : (Nat → Nat → Nat) → ℚ → Nat × List (Nat × Nat))
    (hop_penalty : ℚ) (t : PoseTable2) : Option ((List Mat × List Bool) × Nat) :=
  let overlaps := pattern_overlaps t
  let mp := select_pairs overlaps hop_penalty
  match chainPoses (estimate_transform align t) mp.2 [(mp.1, 1)] with
  | some d => some (fill_poses d t.nrows, mp.1)
  | none => none

theorem dlookup_dinsert_eq (d : List (Nat × Mat)) (k : Nat) (v : Mat) :
    dlookup (dinsert d k v) k = some v := by
  induction d with
  | nil => simp [dinsert, dlookup]
  | cons kv rest ih =>
    obtain ⟨a, b⟩ := kv
    by_cases h : k = a
    · simp [dinsert, dlookup, h]
    · simp [dinsert, dlookup, h, ih]

theorem dlookup_dinsert_ne (d : List (Nat × Mat)) (k k' : Nat) (v : Mat)
    (h : k' ≠ k) : dlookup (dinsert d k v) k' = dlookup d k' := by
  induction d with
  | nil => simp [dinsert, dlookup, h]
  | cons kv rest ih =>
    obtain ⟨a, b⟩ := kv
    by_cases hka : k = a
    · subst hka
      simp [dinsert, dlookup, h]
    · by_cases hk'a : k' = a
      · simp [dinsert, dlookup, hka, hk'a]
      · simp [dinsert, dlookup, hka, hk'a, ih]

theorem dkeys_dinsert_not_mem : ∀ (d : List (Nat × Mat)) (k : Nat) (v : Mat),
    k ∉ dkeys d → dkeys (dinsert d k v) = dkeys d ++ [k]
  | [], _, _, _ => rfl
  | (a, b) :: rest, k, v, h => by
    have hka : k ≠ a := fun he => h (he ▸ List.mem_cons_self a (dkeys rest))
    show dkeys (if k = a then (k, v) :: rest else (a, b) :: dinsert rest k v) =
      (a :: dkeys rest) ++ [k]
    rw [if_neg hka]
    show a :: dkeys (dinsert rest k v) = a :: (dkeys rest ++ [k])
    rw [dkeys_dinsert_not_mem rest k v (fun hm => h (List.mem_cons_of_mem a hm))]

theorem dlookup_of_mem_dkeys : ∀ (d : List (Nat × Mat)) (k : Nat),
    k ∈ dkeys d → ∃ v, dlookup d k = some v
  | [], k, h => absurd h (List.not_mem_nil k)
  | (a, b) :: rest, k, h => by
    by_cases hka : k = a
    · exact ⟨b, by simp [dlookup, hka]⟩
    · have hk : k ∈ dkeys rest := by
        rcases List.mem_cons.mp h with h | h
        · exact absurd h hka
        · exact h
      obtain ⟨v, hv⟩ := dlookup_of_mem_dkeys rest k hk
      exact ⟨v, by simp [dlookup, hka, hv]⟩

theorem topoOk_congr : ∀ (pairs : List (Nat × Nat)) (ks ks' : List Nat),
    (∀ x, x ∈ ks ↔ x ∈ ks') → topoOk ks pairs = true → topoOk ks' pairs = true
  | [], _, _, _, _ => rfl
  | (p, c) :: rest, ks, ks', hiff, h => by
    show (decide (p ∈ ks') && topoOk (c :: ks') rest) = true
    have h' : (decide (p ∈ ks) && topoOk (c :: ks) rest) = true := h
    rw [Bool.and_eq_true] at h' ⊢
    refine ⟨decide_eq_true ((hiff p).mp (of_decide_eq_true h'.1)), ?_⟩
    refine topoOk_congr rest (c :: ks) (c :: ks') (fun x => ?_) h'.2
    simp only [List.mem_cons]
    exact or_congr Iff.rfl (hiff x)

/-- The walk of `chainPoses`, run from a dict `d` whose keys precede `pairs`
topologically: it succeeds, its keys are the seeded keys plus the children,
seeded entries are untouched, and every edge stores
`pose[child] = est parent child * pose[parent]`. -/
theorem chainPoses_spec (est : Nat → Nat → Mat) :
    ∀ (pairs : List (Nat × Nat)) (d : List (Nat × Mat)),
    (dkeys d).Nodup → topoOk (dkeys d) pairs = true →
    (∀ p ∈ pairs, p.2 ∉ dkeys d) → (pairs.map Prod.snd).Nodup →
    ∃ d', chainPoses est pairs d = some d' ∧
      (dkeys d').Nodup ∧
      (∀ x, x ∈ dkeys d' ↔ x ∈ dkeys d ∨ x ∈ pairs.map Prod.snd) ∧
      (∀ k ∈ dkeys d, dlookup d' k = dlookup d k) ∧
      (∀ p ∈ pairs, ∃ q, dlookup d' p.1 = some q ∧
        dlookup d' p.2 = some (est p.1 p.2 * q))
  | [], d, hnd, _, _, _ => ⟨d, rfl, hnd, by simp, fun k _ => rfl, by simp⟩
  | (p, c) :: rest, d, hnd, htopo, hfresh, hsnd => by
    have htopo' : (decide (p ∈ dkeys d) && topoOk (c :: dkeys d) rest) = true := htopo
    rw [Bool.and_eq_true] at htopo'
    have hp : p ∈ dkeys d := of_decide_eq_true htopo'.1
    obtain ⟨q0, hq0⟩ := dlookup_of_mem_dkeys d p hp
    have hc : c ∉ dkeys d := hfresh (p, c) (List.mem_cons_self _ _)
    have hpc : p ≠ c := fun he => hc (he ▸ hp)
    have hsnd' : c ∉ rest.map Prod.snd ∧ (rest.map Prod.snd).Nodup := by
      have : (c :: rest.map Prod.snd).Nodup := by simpa using hsnd
      exact List.nodup_cons.mp this
    have hkeys2 : dkeys (dinsert d c (est p c * q0)) = dkeys d ++ [c] :=
      dkeys_dinsert_not_mem d c _ hc
    have hmem2 : ∀ x, x ∈ dkeys (dinsert d c (est p c * q0)) ↔
        x ∈ dkeys d ∨ x = c := by
      intro x
      rw [hkeys2]
      simp
    have hnd2 : (dkeys (dinsert d c (est p c * q0))).Nodup := by
      rw [hkeys2]
      rw [List.nodup_append]
      exact ⟨hnd, List.nodup_singleton c, by
        intro x hx hx'
        exact hc ((by simpa using hx' : x = c) ▸ hx)⟩
    obtain ⟨d', hrun, hnd', hmem', hpres', hedges'⟩ :=
      chainPoses_spec est rest (dinsert d c (est p c * q0)) hnd2
        (topoOk_congr rest (c :: dkeys d) _
          (fun x => by rw [hmem2 x]; simp [or_comm]) htopo'.2)
        (fun p' hp' hin => by
          rcases (hmem2 p'.2).mp hin with h | h
          · exact hfresh p' (List.mem_cons_of_mem _ hp') h
          · exact hsnd'.1 (h ▸ List.mem_map_of_mem Prod.snd hp'))
        hsnd'.2
    refine ⟨d', ?_, hnd', ?_, ?_, ?_⟩
    · show (match dlookup d p with
        | some q => chainPoses est rest (dinsert d c (est p c * q))
        | none => none) = some d'
      rw [hq0]
      exact hrun
    · intro x
      rw [hmem' x, hmem2 x]
      simp only [List.map_cons, List.mem_cons]
      tauto
    · intro k hk
      have hkc : k ≠ c := fun he => hc (he ▸ hk)
      rw [hpres' k ((hmem2 k).mpr (Or.inl hk)), dlookup_dinsert_ne d c k _ hkc]
    · intro p' hp'
      rcases List.mem_cons.mp hp' with h | h
      · subst h
        refine ⟨q0, ?_, ?_⟩
        · rw [hpres' p ((hmem2 p).mpr (Or.inl hp)), dlookup_dinsert_ne d c p _ hpc,
            hq0]
        · rw [hpres' c ((hmem2 c).mpr (Or.inr rfl)), dlookup_dinsert_eq]
      · exact hedges' p' h

theorem getD_map {α β : Type} : ∀ (l : List α) (f : α → β) (i : Nat) (d : β)
    (w : α), i < l.length → (l.map f).getD i d = f (l.getD i w)
  | [], _, _, _, _, h => by simp at h
  | a :: t, f, 0, d, w, _ => rfl
  | a :: t, f, i + 1, d, w, h => getD_map t f i d w (by simpa using h)

theorem mem_exists_getD {α : Type} (l : List α) (a w : α) (h : a ∈ l) :
    ∃ i, i < l.length ∧ l.getD i w = a := by
  induction l with
  | nil => simp at h
  | cons b t ih =>
    rcases List.mem_cons.mp h with h | h
    · exact ⟨0, Nat.succ_pos _, h.symm⟩
    · obtain ⟨i, hi, hg⟩ := ih h
      exact ⟨i + 1, by simp only [List.length_cons]; omega, hg⟩

/-- Behaviour of `fill_poses`: length-`n` table, dict entries at their keys
(marked valid), identity tile (marked invalid) everywhere else. -/
theorem fill_poses_spec (d : List (Nat × Mat)) (n : Nat)
    (hnd : (dkeys d).Nodup) (hlt : ∀ k ∈ dkeys d, k < n) :
    (fill_poses d n).1.length = n ∧
    (fill_poses d n).2.length = n ∧
    (∀ k ∈ dkeys d, (fill_poses d n).1.getD k 0 = (dlookup d k).getD 1 ∧
      (fill_poses d n).2.getD k false = true) ∧
    (∀ i, i < n → i ∉ dkeys d → (fill_poses d n).1.getD i 0 = 1 ∧
      (fill_poses d n).2.getD i false = false) := by
  have hperm : List.Perm (List.insertionSort (· ≤ ·) (dkeys d)) (dkeys d) :=
    List.perm_insertionSort (· ≤ ·) (dkeys d)
  set ids := List.insertionSort (· ≤ ·) (dkeys d) with hids
  have hmem : ∀ x, x ∈ ids ↔ x ∈ dkeys d := fun x => hperm.mem_iff
  have hnd' : ids.Nodup := hperm.nodup_iff.mpr hnd
  have hlt' : ∀ i ∈ ids, i < n := fun i hi => hlt i ((hmem i).mp hi)
  have hvlen : (ids.map fun k => (dlookup d k).getD 1).length = ids.length := by
    rw [List.length_map]
  refine ⟨?_, ?_, ?_, ?_⟩
  · show (writeAll ids (ids.map fun k => (dlookup d k).getD 1)
      (List.replicate n 1)).length = n
    rw [writeAll_length, List.length_replicate]
  · show (setTrueAll ids (List.replicate n false)).length = n
    rw [setTrueAll_length, List.length_replicate]
  · intro k hk
    have hkids : k ∈ ids := (hmem k).mpr hk
    obtain ⟨kpos, hkpos, hkget⟩ := mem_exists_getD ids k 0 hkids
    constructor
    · show (writeAll ids (ids.map fun k => (dlookup d k).getD 1)
        (List.replicate n 1)).getD k 0 = (dlookup d k).getD 1
      rw [← hkget]
      rw [writeAll_getD_pos ids _ _ 0 1 hnd'
        (fun i hi => by rw [List.length_replicate]; exact hlt' i hi)
        hvlen kpos hkpos]
      rw [getD_map ids _ kpos 1 0 hkpos, hkget]
    · show (setTrueAll ids (List.replicate n false)).getD k false = true
      exact setTrueAll_getD_mem ids _ k hkids
        (by rw [List.length_replicate]; exact hlt k hk)
  · intro i hi hni
    have hnids : i ∉ ids := fun hm => hni ((hmem i).mp hm)
    constructor
    · show (writeAll ids (ids.map fun k => (dlookup d k).getD 1)
        (List.replicate n 1)).getD i 0 = 1
      rw [writeAll_getD_not_mem ids _ _ i 0 hnids]
      exact getD_replicate n i 1 0 hi
    · show (setTrueAll ids (List.replicate n false)).getD i false = false
      rw [setTrueAll_getD_not_mem ids _ i hnids]
      exact getD_replicate n i false false hi

/-- Claim C1: `estimate_relative_poses` seeds the master's pose with the
identity, walks the selected edges (given in parent-before-child order by the
external `graph.select_pairs`) setting `pose[child] = t @ pose[parent]`, and
densifies the sparse node-to-pose dict into a full table whose non-selected
entries are the identity tile marked invalid; the returned table's entry for
the master is the identity and is marked valid. -/
theorem estimate_relative_poses_spec (align : List Mat → List Mat → Mat)
    (select_pairs : (Nat → Nat → Nat) → ℚ → Nat × List (Nat × Nat))
    (hop_penalty : ℚ) (t : PoseTable2) (master : Nat) (pairs : List (Nat × Nat))
    (hsel : select_pairs (pattern_overlaps t) hop_penalty = (master, pairs))
    (hm : master < t.nrows)
    (hlt : ∀ p ∈ pairs, p.1 < t.nrows ∧ p.2 < t.nrows)
    (htopo : topoOk [master] pairs = true)
    (hsnd : (pairs.map Prod.snd).Nodup)
    (hnotm : master ∉ pairs.map Prod.snd) :
    ∃ d, chainPoses (estimate_transform align t) pairs [(master, 1)] = some d ∧
      dlookup d master = some 1 ∧
      (∀ p ∈ pairs, ∃ q, dlookup d p.1 = some q ∧
        dlookup d p.2 = some (estimate_transform align t p.1 p.2 * q)) ∧
      estimate_relative_poses align select_pairs hop_penalty t =
        some (fill_poses d t.nrows, master) ∧
      (fill_poses d t.nrows).1.length = t.nrows ∧
      (fill_poses d t.nrows).1.getD master 0 = 1 ∧
      (fill_poses d t.nrows).2.getD master false = true ∧
      (∀ i, i < t.nrows → i ≠ master → i ∉ pairs.map Prod.snd →
        (fill_poses d t.nrows).1.getD i 0 = 1 ∧
        (fill_poses d t.nrows).2.getD i false = false) := by
  have hd0 : dkeys [(master, (1 : Mat))] = [master] := rfl
  have hfresh : ∀ p ∈ pairs, p.2 ∉ dkeys [(master, (1 : Mat))] := by
    intro p hp hmem
    rw [hd0] at hmem
    have : p.2 = master := by simpa using hmem
    exact hnotm (this ▸ List.mem_map_of_mem Prod.snd hp)
  obtain ⟨d, hchain, hndk, hmemk, hpres, hedges⟩ :=
    chainPoses_spec (estimate_transform align t) pairs [(master, 1)]
      (by rw [hd0]; exact List.nodup_singleton master)
      (by rw [hd0]; exact htopo) hfresh hsnd
  have hmaster : dlookup d master = some 1 := by
    rw [hpres master (by rw [hd0]; exact List.mem_cons_self master [])]
    simp [dlookup]
  have hbound : ∀ k ∈ dkeys d, k < t.nrows := by
    intro k hk
    rcases (hmemk k).mp hk with h | h
    · rw [hd0] at h
      have : k = master := by simpa using h
      omega
    · obtain ⟨p, hp, hpk⟩ := List.mem_map.mp h
      exact hpk ▸ (hlt p hp).2
  obtain ⟨hflen, _hmlen, hin, hout⟩ := fill_poses_spec d t.nrows hndk hbound
  have hmasterk : master ∈ dkeys d :=
    (hmemk master).mpr (Or.inl (by rw [hd0]; exact List.mem_cons_self master []))
  refine ⟨d, hchain, hmaster, hedges, ?_, hflen, ?_, (hin master hmasterk).2, ?_⟩
  · show (match chainPoses (estimate_transform align t)
      (select_pairs (pattern_overlaps t) hop_penalty).2
      [((select_pairs (pattern_overlaps t) hop_penalty).1, 1)] with
      | some d => some (fill_poses d t.nrows,
          (select_pairs (pattern_overlaps t) hop_penalty).1)
      | none => none) = some (fill_poses d t.nrows, master)
    rw [hsel, hchain]
  · rw [(hin master hmasterk).1, hmaster]
    rfl
  · intro i hi hne hnsel
    refine hout i hi (fun hmem => ?_)
    rcases (hmemk i).mp hmem with h | h
    · rw [hd0] at h
      exact hne (by simpa using h)
    · exact hnsel h

/-- Concrete inputs for the C1 witness: 3 nodes, master 1,
edges 1 -> 0 -> 2. -/
def tableC1 : PoseTable2 := ⟨3, 1, fun _ _ => 1, fun _ _ => true, fun _ _ => 1⟩

/-- The aligner used in the C1 witness (constant identity). -/
def alignC1 : List Mat → List Mat → Mat := fun _ _ => 1

/-- The spanning-structure chooser used in the C1 witness. -/
def spC1 : (Nat → Nat → Nat) → ℚ → Nat × List (Nat × Nat) :=
  fun _ _ => (1, [(1, 0), (0, 2)])

/-- Witness for C1 at the concrete inputs above. -/
theorem estimate_relative_poses_spec_witness :
    ∃ d, chainPoses (estimate_transform alignC1 tableC1) [(1, 0), (0, 2)]
        [(1, 1)] = some d ∧
      dlookup d 1 = some 1 ∧
      (∀ p ∈ [(1, 0), (0, 2)], ∃ q, dlookup d p.1 = some q ∧
        dlookup d p.2 = some (estimate_transform alignC1 tableC1 p.1 p.2 * q)) ∧
      estimate_relative_poses alignC1 spC1 (9 / 10) tableC1 =
        some (fill_poses d tableC1.nrows, 1) ∧
      (fill_poses d tableC1.nrows).1.length = tableC1.nrows ∧
      (fill_poses d tableC1.nrows).1.getD 1 0 = 1 ∧
      (fill_poses d tableC1.nrows).2.getD 1 false = true ∧
      (∀ i, i < tableC1.nrows → i ≠ 1 →
        i ∉ ([(1, 0), (0, 2)] : List (Nat × Nat)).map Prod.snd →
        (fill_poses d tableC1.nrows).1.getD i 0 = 1 ∧
        (fill_poses d tableC1.nrows).2.getD i false = false) :=
  estimate_relative_poses_spec alignC1 spC1 (9 / 10) tableC1 1 [(1, 0), (0, 2)]
    rfl (by decide) (by decide) (by decide) (by decide) (by decide)

/-! ### Claim C2: what `estimate_transform` feeds the aligner -/

/-- The shared-valid-frame restriction of two rows — what the spec says the
aligner receives for an edge (mirrors `common_entries` applied to the two
rows, as `relative_between` does elsewhere in the source). -/
def sharedValidPoses (t : PoseTable2) (i j : Nat) : List Mat × List Mat :=
  let fs := (List.range t.nframes).filter fun f =>
    t.valid_poses i f && t.valid_poses j f
  (fs.map fun f => t.poses i f, fs.map fun f => t.poses j f)

/-- Validity pattern shared by the two C2 counterexample tables:
node 1 has no valid pose in frame 1. -/
def validC2 : Nat → Nat → Bool := fun i f => !(i == 1 && f == 1)

/-- All-zero 4x4 matrix used as a pose sample placeholder. -/
def zeroMatC2 : Mat := Matrix.of fun _ _ => 0

/-- First counterexample table: all pose samples zero. -/
def tableC2A : PoseTable2 := ⟨2, 2, fun _ _ => zeroMatC2, validC2, fun _ _ => 1⟩

/-- Second counterexample table: identical to `tableC2A` except for the pose
sample of node 0 in frame 1 — a frame that is NOT shared-valid for the edge
(0, 1) because node 1 is invalid there. -/
def tableC2B : PoseTable2 :=
  ⟨2, 2, fun i f => if i = 0 ∧ f = 1 then Matrix.of (fun _ _ => 5) else zeroMatC2,
    validC2, fun _ _ => 1⟩

/-- An aligner that inspects the sample at index 1 of the parent row. -/
def alignC2 : List Mat → List Mat → Mat := fun a _ => a.getD 1 zeroMatC2

/-- Counterexample to claim C2 as stated: the two tables agree on every
validity flag and on every pose sample of the shared valid frames of the
edge `(0, 1)`, yet `estimate_transform` gives different results, so the edge
transform is not estimated only from the frames in which both the parent and
the child have a valid pose — the source passes the full unmasked rows to
the aligner. -/
theorem estimate_transform_not_masked :
    sharedValidPoses tableC2A 0 1 = sharedValidPoses tableC2B 0 1 ∧
    tableC2A.valid_poses = tableC2B.valid_poses ∧
    estimate_transform alignC2 tableC2A 0 1 ≠ estimate_transform alignC2 tableC2B 0 1 := by
  refine ⟨by decide, rfl, by decide⟩

/-- Claim C2 (amended): in the pose chainer, for every selected edge
`(parent, child)`, the robust rigid transform for that edge is computed by
applying the aligner to the FULL rows of pose samples of the parent and the
child — one sample per frame, `nframes` samples each, with no restriction to
the shared valid frames — aligning the child's samples to the parent's. -/
theorem estimate_transform_full_rows (align : List Mat → List Mat → Mat)
    (t : PoseTable2) (master : Nat) (pairs : List (Nat × Nat))
    (htopo : topoOk [master] pairs = true)
    (hsnd : (pairs.map Prod.snd).Nodup)
    (hnotm : master ∉ pairs.map Prod.snd) :
    ∃ d, chainPoses (estimate_transform align t) pairs [(master, 1)] = some d ∧
      ∀ p ∈ pairs, (rowPoses t p.1).length = t.nframes ∧
        (rowPoses t p.2).length = t.nframes ∧
        ∃ q, dlookup d p.1 = some q ∧
          dlookup d p.2 = some (align (rowPoses t p.1) (rowPoses t p.2) * q) := by
  have hd0 : dkeys [(master, (1 : Mat))] = [master] := rfl
  have hfresh : ∀ p ∈ pairs, p.2 ∉ dkeys [(master, (1 : Mat))] := by
    intro p hp hmem
    rw [hd0] at hmem
    have : p.2 = master := by simpa using hmem
    exact hnotm (this ▸ List.mem_map_of_mem Prod.snd hp)
  obtain ⟨d, hchain, _, _, _, hedges⟩ :=
    chainPoses_spec (estimate_transform align t) pairs [(master, 1)]
      (by rw [hd0]; exact List.nodup_singleton master)
      (by rw [hd0]; exact htopo) hfresh hsnd
  refine ⟨d, hchain, fun p hp => ⟨?_, ?_, hedges p hp⟩⟩
  · simp [rowPoses]
  · simp [rowPoses]

/-- Witness for the amended C2 at a concrete input: one edge `(0, 1)` on
`tableC2A`, whose node-1 row has an invalid frame, with the index-sensitive
aligner `alignC2`. -/
theorem estimate_transform_full_rows_witness :
    ∃ d, chainPoses (estimate_transform alignC2 tableC2A) [(0, 1)]
        [(0, 1)] = some d ∧
      ∀ p ∈ ([(0, 1)] : List (Nat × Nat)),
        (rowPoses tableC2A p.1).length = tableC2A.nframes ∧
        (rowPoses tableC2A p.2).length = tableC2A.nframes ∧
        ∃ q, dlookup d p.1 = some q ∧
          dlookup d p.2 =
            some (alignC2 (rowPoses tableC2A p.1) (rowPoses tableC2A p.2) * q) :=
  estimate_transform_full_rows alignC2 tableC2A 0 [(0, 1)]
    (by decide) (by decide) (by decide)

/-! ### N-D tables, broadcasting and `multiply_tables` (claims C5, C6) -/

/-- An N-dimensional pose table: an explicit leading shape plus the fields as
index functions (an index is one coordinate per axis); the trailing 4x4 of
the numpy `poses` array is the `Mat` element. -/
structure NTable where
  shape : List Nat
  poses : List Nat → Mat
  valid_poses : List Nat → Bool

/-- `can_broadcast(shape1, shape2)` from the source: equal rank, and every
axis pair equal or one of the two axes of size 1. -/
def can_broadcast (shape1 shape2 : List Nat) : Bool :=
  shape1.length == shape2.length &&
  ((List.zip shape1 shape2).all fun p => p.1 == p.2 || p.1 == 1 || p.2 == 1)

/-- The numpy broadcast read: a size-1 axis always reads coordinate 0. -/
def bcastIndex (shape idx : List Nat) : List Nat :=
  List.zipWith (fun s i => if s = 1 then 0 else i) shape idx

/-- An index lies within a shape. -/
def inBounds : List Nat → List Nat → Bool
  | [], [] => true
  | i :: is, s :: ss => decide (i < s) && inBounds is ss
  | _, _ => false

/-- `multiply_tables(table1, table2)`: assert broadcastability, then combine
elementwise — matrix product of `poses`, AND of `valid_poses`; `none` models
the failed assert. -/
def multiply_tables (t1 t2 : NTable) : Option NTable :=
  if can_broadcast t1.shape t2.shape then
    some { shape := List.zipWith max t1.shape t2.shape,
           poses := fun idx => t1.poses (bcastIndex t1.shape idx) *
             t2.poses (bcastIndex t2.shape idx),
           valid_poses := fun idx => t1.valid_poses (bcastIndex t1.shape idx) &&
             t2.valid_poses (bcastIndex t2.shape idx) }
  else none

/-- numpy's own (one-sided) rule for `np.broadcast_to(a, shape)`: every axis
of `a` must equal the target axis or be 1 — an axis of `a` larger than 1
cannot be broadcast down, and numpy raises `ValueError`. -/
def broadcastable_to (shape1 shape2 : List Nat) : Bool :=
  shape1.length == shape2.length &&
  ((List.zip shape1 shape2).all fun p => p.1 == p.2 || p.1 == 1)

/-- `broadcast_to(table1, table2)`: assert the (symmetric) `can_broadcast`
precondition, then call `np.broadcast_to(field, table2_field.shape)` on every
field of `table1`.  The numpy call itself still raises `ValueError` when an
axis of `table1` exceeds 1 while `table2`'s axis is 1 (the one-sided
`broadcastable_to` rule); both the failed assert and the `ValueError` are
`none` — no table is ever produced on either failure. -/
def broadcast_to (t1 t2 : NTable) : Option NTable :=
  if can_broadcast t1.shape t2.shape then
    if broadcastable_to t1.shape t2.shape then
      some { shape := t2.shape,
             poses := fun idx => t1.poses (bcastIndex t1.shape idx),
             valid_poses := fun idx => t1.valid_poses (bcastIndex t1.shape idx) }
    else none
  else none

theorem bcastIndex_inBounds : ∀ (shape idx : List Nat),
    inBounds idx shape = true → bcastIndex shape idx = idx
  | [], [], _ => rfl
  | [], i :: is, h => by
    exact absurd h (by simp [inBounds])
  | _ :: _, [], _ => rfl
  | s :: ss, i :: is, h => by
    have h' : (decide (i < s) && inBounds is ss) = true := h
    rw [Bool.and_eq_true] at h'
    have his : i < s := of_decide_eq_true h'.1
    show (if s = 1 then 0 else i) :: bcastIndex ss is = i :: is
    rw [bcastIndex_inBounds ss is h'.2]
    by_cases hs : s = 1
    · rw [if_pos hs]
      have : i = 0 := by omega
      rw [this]
    · rw [if_neg hs]

theorem can_broadcast_cons (a b : Nat) (s1 s2 : List Nat) :
    can_broadcast (a :: s1) (b :: s2) =
      ((a == b || a == 1 || b == 1) && can_broadcast s1 s2) := by
  show ((s1.length + 1 == s2.length + 1) &&
      ((a == b || a == 1 || b == 1) &&
        ((List.zip s1 s2).all fun p => p.1 == p.2 || p.1 == 1 || p.2 == 1))) = _
  rw [can_broadcast]
  have hbeq : (s1.length + 1 == s2.length + 1) = (s1.length == s2.length) := by
    cases hb : s1.length == s2.length
    · simp only [beq_eq_false_iff_ne, ne_eq] at hb
      simp only [beq_eq_false_iff_ne, ne_eq]
      omega
    · simp only [beq_iff_eq] at hb
      simp [hb]
  rw [hbeq, Bool.and_left_comm]

theorem can_broadcast_true_iff : ∀ (s1 s2 : List Nat),
    can_broadcast s1 s2 = true ↔ (s1.length = s2.length ∧
      ∀ k, k < s1.length →
        s1.getD k 0 = s2.getD k 0 ∨ s1.getD k 0 = 1 ∨ s2.getD k 0 = 1)
  | [], [] => by simp [can_broadcast]
  | [], b :: s2 => by simp [can_broadcast]
  | a :: s1, [] => by simp [can_broadcast]
  | a :: s1, b :: s2 => by
    rw [can_broadcast_cons, Bool.and_eq_true, can_broadcast_true_iff s1 s2]
    constructor
    · rintro ⟨hab, hlen, hall⟩
      refine ⟨by simp [hlen], fun k hk => ?_⟩
      cases k with
      | zero =>
        simp only [Bool.or_eq_true, beq_iff_eq] at hab
        simpa [or_assoc] using hab
      | succ k =>
        simpa using hall k (by simpa using hk)
    · rintro ⟨hlen, hall⟩
      refine ⟨?_, by simpa using hlen, fun k hk => ?_⟩
      · have h0 := hall 0 (by simp)
        simp only [List.getD_cons_zero] at h0
        simp only [Bool.or_eq_true, beq_iff_eq]
        tauto
      · simpa using hall (k + 1) (by simp only [List.length_cons]; omega)

/-- Claim C5: for broadcast-compatible pose tables, `multiply_tables` returns
a table whose validity mask is the elementwise AND of the two validity masks
and whose poses are the elementwise matrix product of the two poses fields
(each operand read through the numpy broadcast rule; for equal shapes every
in-range index reads the operands' own entries directly). -/
theorem multiply_tables_spec (t1 t2 : NTable)
    (hcb : can_broadcast t1.shape t2.shape = true) :
    ∃ r, multiply_tables t1 t2 = some r ∧
      r.shape = List.zipWith max t1.shape t2.shape ∧
      (∀ idx, r.valid_poses idx =
        (t1.valid_poses (bcastIndex t1.shape idx) &&
         t2.valid_poses (bcastIndex t2.shape idx))) ∧
      (∀ idx, r.poses idx =
        t1.poses (bcastIndex t1.shape idx) *
          t2.poses (bcastIndex t2.shape idx)) ∧
      (t1.shape = t2.shape → ∀ idx, inBounds idx t1.shape = true →
        r.valid_poses idx = (t1.valid_poses idx && t2.valid_poses idx) ∧
        r.poses idx = t1.poses idx * t2.poses idx) := by
  refine ⟨_, by rw [multiply_tables, if_pos hcb], rfl, fun idx => rfl,
    fun idx => rfl, ?_⟩
  intro hsh idx hib
  have h1 : bcastIndex t1.shape idx = idx := bcastIndex_inBounds t1.shape idx hib
  have h2 : bcastIndex t2.shape idx = idx := by
    rw [← hsh]
    exact h1
  constructor
  · show (t1.valid_poses (bcastIndex t1.shape idx) &&
      t2.valid_poses (bcastIndex t2.shape idx)) = _
    rw [h1, h2]
  · show t1.poses (bcastIndex t1.shape idx) *
      t2.poses (bcastIndex t2.shape idx) = _
    rw [h1, h2]

/-- Claim C6 (amended): combining two tables whose shapes are not
broadcast-compatible (for equal rank this means exactly: some axis pair is
unequal with neither side of size 1) fails immediately at the precondition
assert with no result table, for `multiply_tables` and `broadcast_to` alike —
never a truncated table; under broadcast-compatible shapes the assert branch
is unreachable and `multiply_tables` always produces a table, while
`broadcast_to` produces a table (of `table2`'s shape) exactly when every axis
of `table1` equals `table2`'s or is 1, and otherwise raises numpy's
`ValueError` — again with no result table and no truncation. -/
theorem multiply_tables_fail_fast (t1 t2 : NTable) :
    (can_broadcast t1.shape t2.shape = false →
      multiply_tables t1 t2 = none ∧ broadcast_to t1 t2 = none) ∧
    (can_broadcast t1.shape t2.shape = true →
      (∃ r, multiply_tables t1 t2 = some r) ∧
      (broadcastable_to t1.shape t2.shape = true →
        ∃ r, broadcast_to t1 t2 = some r ∧ r.shape = t2.shape) ∧
      (broadcastable_to t1.shape t2.shape = false →
        broadcast_to t1 t2 = none)) ∧
    (t1.shape.length = t2.shape.length →
      (can_broadcast t1.shape t2.shape = false ↔
        ∃ k, k < t1.shape.length ∧
          t1.shape.getD k 0 ≠ t2.shape.getD k 0 ∧
          t1.shape.getD k 0 ≠ 1 ∧ t2.shape.getD k 0 ≠ 1)) := by
  refine ⟨?_, ?_, ?_⟩
  · intro hf
    constructor
    · rw [multiply_tables, if_neg (by rw [hf]; exact Bool.false_ne_true)]
    · rw [broadcast_to, if_neg (by rw [hf]; exact Bool.false_ne_true)]
  · intro ht
    refine ⟨⟨_, by rw [multiply_tables, if_pos ht]⟩, ?_, ?_⟩
    · intro hb
      refine ⟨NTable.mk t2.shape (fun idx => t1.poses (bcastIndex t1.shape idx))
        (fun idx => t1.valid_poses (bcastIndex t1.shape idx)), ?_, rfl⟩
      rw [broadcast_to, if_pos ht, if_pos hb]
    · intro hb
      rw [broadcast_to, if_pos ht, if_neg (by rw [hb]; exact Bool.false_ne_true)]
  · intro hlen
    constructor
    · intro hf
      have hnt : ¬(can_broadcast t1.shape t2.shape = true) := by
        rw [hf]
        exact Bool.false_ne_true
      rw [can_broadcast_true_iff] at hnt
      push_neg at hnt
      obtain ⟨k, hk, hn⟩ := hnt hlen
      exact ⟨k, hk, hn.1, hn.2.1, hn.2.2⟩
    · rintro ⟨k, hk, h1, h2, h3⟩
      cases hb : can_broadcast t1.shape t2.shape
      · rfl
      · rcases ((can_broadcast_true_iff _ _).mp hb).2 k hk with h | h | h
        · exact absurd h h1
        · exact absurd h h2
        · exact absurd h h3

/-- Concrete table with shape `[2, 1]` for the C5/C6 witnesses. -/
def ntableA : NTable := ⟨[2, 1], fun _ => 1, fun idx => idx.getD 0 0 == 0⟩

/-- Concrete table with shape `[2, 3]` for the C5/C6 witnesses. -/
def ntableB : NTable :=
  ⟨[2, 3], fun idx => Matrix.of fun _ _ => (idx.getD 1 0 : ℚ),
    fun idx => idx.getD 1 0 == 0⟩

/-- Concrete table with shape `[2, 4]` (incompatible with `[2, 3]`). -/
def ntableC : NTable := ⟨[2, 4], fun _ => 1, fun _ => true⟩

/-- Witness for C5 at the concrete compatible pair `[2, 1]` x `[2, 3]`. -/
theorem multiply_tables_spec_witness :
    ∃ r, multiply_tables ntableA ntableB = some r ∧
      r.shape = List.zipWith max ntableA.shape ntableB.shape ∧
      (∀ idx, r.valid_poses idx =
        (ntableA.valid_poses (bcastIndex ntableA.shape idx) &&
         ntableB.valid_poses (bcastIndex ntableB.shape idx))) ∧
      (∀ idx, r.poses idx =
        ntableA.poses (bcastIndex ntableA.shape idx) *
          ntableB.poses (bcastIndex ntableB.shape idx)) ∧
      (ntableA.shape = ntableB.shape → ∀ idx, inBounds idx ntableA.shape = true →
        r.valid_poses idx = (ntableA.valid_poses idx && ntableB.valid_poses idx) ∧
        r.poses idx = ntableA.poses idx * ntableB.poses idx) :=
  multiply_tables_spec ntableA ntableB (by decide)

/-- Counterexample to claim C6 as stated: under broadcast-compatible shapes
the failure branch is NOT unreachable.  The shape pair `[2, 3]` vs `[2, 1]`
passes the symmetric `can_broadcast` assert, yet `np.broadcast_to` cannot
shrink the size-3 axis onto the size-1 axis and raises `ValueError`:
`broadcast_to` reaches a failure and returns no table. -/
theorem broadcast_to_compatible_fails :
    can_broadcast ntableB.shape ntableA.shape = true ∧
    broadcast_to ntableB ntableA = none :=
  ⟨by decide, rfl⟩

/-- Witness for the amended C6: the incompatible pair `[2, 3]` x `[2, 4]`
fails the assert with no result and satisfies the axis characterization; on
the compatible pair `[2, 1]` x `[2, 3]` `multiply_tables` and `broadcast_to`
both produce a table; on the compatible pair `[2, 3]` x `[2, 1]`
`broadcast_to` hits the `ValueError` branch and produces none. -/
theorem multiply_tables_fail_fast_witness :
    (multiply_tables ntableB ntableC = none ∧ broadcast_to ntableB ntableC = none) ∧
    (∃ r, multiply_tables ntableA ntableB = some r) ∧
    (∃ r, broadcast_to ntableA ntableB = some r ∧ r.shape = ntableB.shape) ∧
    broadcast_to ntableB ntableA = none ∧
    (can_broadcast ntableB.shape ntableC.shape = false ↔
      ∃ k, k < ntableB.shape.length ∧
        ntableB.shape.getD k 0 ≠ ntableC.shape.getD k 0 ∧
        ntableB.shape.getD k 0 ≠ 1 ∧ ntableC.shape.getD k 0 ≠ 1) :=
  ⟨(multiply_tables_fail_fast ntableB ntableC).1 (by decide),
   ((multiply_tables_fail_fast ntableA ntableB).2.1 (by decide)).1,
   ((multiply_tables_fail_fast ntableA ntableB).2.1 (by decide)).2.1 (by decide),
   ((multiply_tables_fail_fast ntableB ntableA).2.1 (by decide)).2.2 (by decide),
   (multiply_tables_fail_fast ntableB ntableC).2.2 (by decide)⟩

/-! ### `inverse` on pose tables (claim C8) -/

/-- `np.linalg.inv` on a single 4x4 matrix: adjugate over determinant
(defined for invertible input; junk on singular input, where numpy raises). -/
def matInv (A : Mat) : Mat := A.det⁻¹ • A.adjugate

/-- A 1-D stacked pose table with its record fields (`poses`, `valid_poses`
and the extra per-record field `num_points`). -/
structure PoseTableN where
  poses : List Mat
  valid_poses : List Bool
  num_points : List Nat

/-- `inverse(table) = table._extend(poses=np.linalg.inv(table.poses))`:
invert every pose, keep every other field. -/
def inverse (t : PoseTableN) : PoseTableN :=
  { t with poses := t.poses.map matInv }

theorem matInv_eq_inv (A : Mat) : matInv A = A⁻¹ := by
  rw [Matrix.inv_def, Ring.inverse_eq_inv']
  rfl

/-- Claim C8: for every pose table whose pose matrices are invertible,
`inverse (inverse t) = t` exactly (the embedding computes in exact rational
arithmetic, which subsumes "up to numerical tolerance"), and `inverse`
leaves every other field of the table unchanged — in particular per-record
validity is preserved. -/
theorem inverse_inverse (t : PoseTableN)
    (h : ∀ A ∈ t.poses, IsUnit A.det) :
    inverse (inverse t) = t ∧
    (inverse t).valid_poses = t.valid_poses ∧
    (inverse t).num_points = t.num_points := by
  refine ⟨?_, rfl, rfl⟩
  obtain ⟨p, v, np⟩ := t
  show PoseTableN.mk ((p.map matInv).map matInv) v np = PoseTableN.mk p v np
  rw [List.map_map]
  congr 1
  refine (List.map_congr_left fun A hA => ?_).trans (List.map_id p)
  show matInv (matInv A) = A
  rw [matInv_eq_inv, matInv_eq_inv]
  exact Matrix.nonsing_inv_nonsing_inv A (h A hA)

/-- Concrete table for the C8 witness. -/
def ptableC8 : PoseTableN := ⟨[1, 1], [true, false], [7, 0]⟩

/-- Witness for C8 at a concrete invertible table. -/
theorem inverse_inverse_witness :
    inverse (inverse ptableC8) = ptableC8 ∧
    (inverse ptableC8).valid_poses = ptableC8.valid_poses ∧
    (inverse ptableC8).num_points = ptableC8.num_points :=
  inverse_inverse ptableC8 (by
    intro A hA
    have hA1 : A = 1 := by
      simp only [ptableC8, List.mem_cons, List.not_mem_nil, or_false, or_self] at hA
      exact hA
    rw [hA1, Matrix.det_one]
    exact isUnit_one)

/-! ### `relative_between` and `initialise_poses` (claim C4) -/

/-- A single pose record mirroring the dynamic structs of the source: a
field a struct does not carry (`num_points` of `valid_pose`) is `none`. -/
structure PoseRec where
  poses : Mat
  num_points : Option Nat
  valid_poses : Bool
deriving DecidableEq

/-- `invalid_pose`: identity transform, zero weight, invalid flag. -/
def invalid_pose : PoseRec := ⟨1, some 0, false⟩

/-- `valid_pose(t)`: `poses=t, valid_poses=True`, no `num_points` field. -/
def valid_pose (t : Mat) : PoseRec := ⟨t, none, true⟩

/-- A 1-D pose table (one row/column of a 2-D table). -/
structure PoseCol where
  poses : List Mat
  valid_poses : List Bool
deriving DecidableEq

/-- `np.nonzero(mask1 & mask2)`: the true positions of the ANDed masks. -/
def commonIds (v1 v2 : List Bool) : List Nat :=
  (List.range (List.zipWith (· && ·) v1 v2).length).filter fun i =>
    (List.zipWith (· && ·) v1 v2).getD i false

/-- Index selection `row._index[ids]`. -/
def selectCol (t : PoseCol) (ids : List Nat) : PoseCol :=
  ⟨ids.map fun i => t.poses.getD i 1, ids.map fun i => t.valid_poses.getD i false⟩

/-- `common_entries(row1, row2, 'valid_poses')`. -/
def common_entries (t1 t2 : PoseCol) : PoseCol × PoseCol × List Nat :=
  (selectCol t1 (commonIds t1.valid_poses t2.valid_poses),
   selectCol t2 (commonIds t1.valid_poses t2.valid_poses),
   commonIds t1.valid_poses t2.valid_poses)

/-- `relative_between(table1, table2)` with the external aligner `align`:
fail-soft to `invalid_pose` on an empty masked intersection, otherwise the
aligning transform over the two valid subsets, tagged valid. -/
def relative_between (align : List Mat → List Mat → Mat) (t1 t2 : PoseCol) :
    PoseRec :=
  if (common_entries t1 t2).2.2 = [] then invalid_pose
  else valid_pose (align (common_entries t1 t2).1.poses
    (common_entries t1 t2).2.1.poses)

/-- `inverse` applied to a 1-D pose table. -/
def inverseCol (t : PoseCol) : PoseCol := ⟨t.poses.map matInv, t.valid_poses⟩

/-- `inverse` applied to a single pose record (`_extend` keeps the other
fields). -/
def inverseRec (r : PoseRec) : PoseRec := { r with poses := matInv r.poses }

/-- `relative_between_inv(table1, table2)`. -/
def relative_between_inv (align : List Mat → List Mat → Mat) (t1 t2 : PoseCol) :
    PoseRec :=
  inverseRec (relative_between align (inverseCol t1) (inverseCol t2))

/-- `relative_between_n(table1, table2, axis, inv)`: zip the two tables'
per-axis sequences (the caller passes the columns along the axis). -/
def relative_between_n (align : List Mat → List Mat → Mat)
    (cols1 cols2 : List PoseCol) (inv : Bool) : List PoseRec :=
  List.zipWith (fun a b => if inv then relative_between_inv align a b
    else relative_between align a b) cols1 cols2

/-- Column `f` (one frame, every camera) of a 2-D pose table. -/
def tableCol (t : PoseTable2) (f : Nat) : PoseCol :=
  ⟨(List.range t.nrows).map fun i => t.poses i f,
   (List.range t.nrows).map fun i => t.valid_poses i f⟩

/-- The result struct of `initialise_poses`. -/
structure Estimates where
  camera : List Mat × List Bool
  rig : List PoseRec
deriving DecidableEq

/-- `initialise_poses(pose_table)`: chain the cameras with
`estimate_relative_poses` (axis 0, default hop penalty 0.9), broadcast the
camera table across the frame axis, and solve each frame's rig pose with
`relative_between_n(expanded, pose_table, axis=1, inv=True)`. -/
def initialise_poses (align : List Mat → List Mat → Mat)
    (select_pairs : (Nat → Nat → Nat) → ℚ → Nat × List (Nat × Nat))
    (t : PoseTable2) : Option Estimates :=
  match estimate_relative_poses align select_pairs (9 / 10) t with
  | none => none
  | some cm =>
    some { camera := cm.1,
           rig := relative_between_n align
             ((List.range t.nframes).map fun _ => PoseCol.mk cm.1.1 cm.1.2)
             ((List.range t.nframes).map (tableCol t)) true }

theorem getD_zipWith {α β γ : Type} (f : α → β → γ) :
    ∀ (l1 : List α) (l2 : List β) (i : Nat) (d : γ) (w1 : α) (w2 : β),
    i < min l1.length l2.length →
    (List.zipWith f l1 l2).getD i d = f (l1.getD i w1) (l2.getD i w2)
  | [], _, _, _, _, _, h => by simp at h
  | _ :: _, [], _, _, _, _, h => by simp at h
  | a :: l1, b :: l2, 0, d, w1, w2, _ => rfl
  | a :: l1, b :: l2, i + 1, d, w1, w2, h => by
    show (List.zipWith f l1 l2).getD i d = f (l1.getD i w1) (l2.getD i w2)
    refine getD_zipWith f l1 l2 i d w1 w2 ?_
    simp only [List.length_cons] at h
    omega

theorem getD_range (n f : Nat) (hf : f < n) : (List.range n).getD f 0 = f := by
  have hlen : f < (List.range n).length := by simpa using hf
  rw [List.getD_eq_getElem?_getD, List.getElem?_eq_getElem hlen]
  simp

theorem getD_map_range {α : Type} (n f : Nat) (g : Nat → α) (d : α)
    (hf : f < n) : ((List.range n).map g).getD f d = g f := by
  rw [getD_map (List.range n) g f d 0 (by simpa using hf), getD_range n f hf]

theorem matInv_one : matInv (1 : Mat) = 1 := by
  rw [matInv, Matrix.det_one, Matrix.adjugate_one, inv_one, one_smul]

theorem commonIds_nil_right (v1 v2 : List Bool)
    (h : ∀ i, i < v2.length → v2.getD i false = false) :
    commonIds v1 v2 = [] := by
  rw [commonIds, List.filter_eq_nil_iff]
  intro i hi
  rw [List.mem_range, List.length_zipWith] at hi
  rw [getD_zipWith (· && ·) v1 v2 i false false false hi,
    h i (by omega)]
  simp

/-- Claim C4: `relative_between` restricts to the entries valid in both
tables; on an empty intersection it returns the canonical `invalid_pose`
(identity transform, zero weight, validity flag false); otherwise it returns
the aligning transform over the two valid subsets tagged valid; consequently
in `initialise_poses` a frame with zero valid camera observations yields an
invalid rig pose (identity, zero weight, invalid) for that frame. -/
theorem relative_between_spec :
    (∀ (align : List Mat → List Mat → Mat) (t1 t2 : PoseCol),
      (∀ i, i < min t1.valid_poses.length t2.valid_poses.length →
        ¬(t1.valid_poses.getD i false = true ∧ t2.valid_poses.getD i false = true)) →
      relative_between align t1 t2 = invalid_pose ∧
      invalid_pose = ⟨1, some 0, false⟩) ∧
    (∀ (align : List Mat → List Mat → Mat) (t1 t2 : PoseCol),
      (common_entries t1 t2).2.2 ≠ [] →
      relative_between align t1 t2 =
        valid_pose (align (common_entries t1 t2).1.poses
          (common_entries t1 t2).2.1.poses) ∧
      (relative_between align t1 t2).valid_poses = true) ∧
    (∀ (align : List Mat → List Mat → Mat)
      (sp : (Nat → Nat → Nat) → ℚ → Nat × List (Nat × Nat))
      (t : PoseTable2) (f : Nat) (e : Estimates),
      initialise_poses align sp t = some e →
      f < t.nframes →
      (∀ i, i < t.nrows → t.valid_poses i f = false) →
      e.rig.getD f invalid_pose = ⟨1, some 0, false⟩) := by
  refine ⟨?_, ?_, ?_⟩
  · intro align t1 t2 hnone
    have hids : commonIds t1.valid_poses t2.valid_poses = [] := by
      rw [commonIds, List.filter_eq_nil_iff]
      intro i hi
      rw [List.mem_range, List.length_zipWith] at hi
      rw [getD_zipWith (· && ·) t1.valid_poses t2.valid_poses i false false false hi]
      intro hand
      rw [Bool.and_eq_true] at hand
      exact hnone i hi ⟨hand.1, hand.2⟩
    have hids' : (common_entries t1 t2).2.2 = [] := hids
    exact ⟨by rw [relative_between, if_pos hids'], rfl⟩
  · intro align t1 t2 hne
    constructor
    · rw [relative_between, if_neg hne]
    · rw [relative_between, if_neg hne]
      rfl
  · intro align sp t f e he hf hall
    rw [initialise_poses] at he
    cases hest : estimate_relative_poses align sp (9 / 10) t with
    | none =>
      rw [hest] at he
      exact absurd he (by simp)
    | some cm =>
      rw [hest] at he
      simp only [Option.some.injEq] at he
      have hrig : e.rig = relative_between_n align
          ((List.range t.nframes).map fun _ => PoseCol.mk cm.1.1 cm.1.2)
          ((List.range t.nframes).map (tableCol t)) true := by
        rw [← he]
      rw [hrig, relative_between_n, List.zipWith_map, List.zipWith_same]
      rw [getD_map_range t.nframes f _ invalid_pose hf]
      show relative_between_inv align (PoseCol.mk cm.1.1 cm.1.2) (tableCol t f) =
        PoseRec.mk 1 (some 0) false

      have hcols : commonIds (inverseCol (PoseCol.mk cm.1.1 cm.1.2)).valid_poses
          (inverseCol (tableCol t f)).valid_poses = [] := by
        refine commonIds_nil_right _ _ (fun i hi => ?_)
        show ((List.range t.nrows).map fun i => t.valid_poses i f).getD i false = false
        have hi' : i < t.nrows := by
          simp only [inverseCol, tableCol, List.length_map, List.length_range] at hi
          exact hi
        rw [getD_map_range t.nrows i _ false hi']
        exact hall i hi'
      have hcols' : (common_entries (inverseCol (PoseCol.mk cm.1.1 cm.1.2))
          (inverseCol (tableCol t f))).2.2 = [] := hcols
      rw [relative_between_inv, relative_between, if_pos hcols']
      show PoseRec.mk (matInv 1) (some 0) false = PoseRec.mk 1 (some 0) false
      rw [matInv_one]

/-- Concrete aligner for the C4 witness. -/
def alignC4 : List Mat → List Mat → Mat := fun a _ => a.getD 0 1

/-- Columns with an empty valid intersection (C4 witness, part one). -/
def colC4A : PoseCol := ⟨[1], [true]⟩

/-- See `colC4A`. -/
def colC4B : PoseCol := ⟨[1], [false]⟩

/-- Columns with a nonempty valid intersection (C4 witness, part two). -/
def colC4C : PoseCol := ⟨[1, 1], [true, true]⟩

/-- See `colC4C`. -/
def colC4D : PoseCol := ⟨[1, 1], [false, true]⟩

/-- One-camera one-frame all-invalid table (C4 witness, part three). -/
def tableC4 : PoseTable2 := ⟨1, 1, fun _ _ => 1, fun _ _ => false, fun _ _ => 0⟩

/-- Spanning-structure chooser for the C4 witness. -/
def spC4 : (Nat → Nat → Nat) → ℚ → Nat × List (Nat × Nat) := fun _ _ => (0, [])

/-- The concrete `initialise_poses` output on `tableC4`. -/
def eC4 : Estimates := ⟨([1], [true]), [⟨matInv 1, some 0, false⟩]⟩

/-- Witness for C4: each part of the claim applied at concrete inputs. -/
theorem relative_between_spec_witness :
    (relative_between alignC4 colC4A colC4B = invalid_pose ∧
      invalid_pose = ⟨1, some 0, false⟩) ∧
    (relative_between alignC4 colC4C colC4D =
        valid_pose (alignC4 (common_entries colC4C colC4D).1.poses
          (common_entries colC4C colC4D).2.1.poses) ∧
      (relative_between alignC4 colC4C colC4D).valid_poses = true) ∧
    eC4.rig.getD 0 invalid_pose = ⟨1, some 0, false⟩ :=
  ⟨relative_between_spec.1 alignC4 colC4A colC4B (by decide),
   relative_between_spec.2.1 alignC4 colC4C colC4D (by decide),
   relative_between_spec.2.2 alignC4 spC4 tableC4 0 eC4 rfl (by decide)
     (fun i _ => rfl)⟩

/-! ### Reprojection diagnostics (claim C9) -/

/-- A point table: 2-D image points plus validity mask. -/
structure PointCol where
  points : List (Fin 2 → ℚ)
  valid_points : List Bool

/-- `np.linalg.norm(p1 - p2, axis=-1)` for one pair of 2-D points: the
Euclidean distance (real-valued; the coordinates stay exact rationals). -/
noncomputable def pointDist (p q : Fin 2 → ℚ) : ℝ :=
  Real.sqrt (((p 0 - q 0 : ℚ) : ℝ) ^ 2 + ((p 1 - q 1 : ℚ) : ℝ) ^ 2)

/-- `reprojection_error(points1, points2)`: elementwise distances with the
masked-out entries zeroed (`error[~mask] = 0`), plus the AND mask. -/
noncomputable def reprojection_error (t1 t2 : PointCol) : List ℝ × List Bool :=
  (List.zipWith (fun e m => if m then e else 0)
    (List.zipWith pointDist t1.points t2.points)
    (List.zipWith (· && ·) t1.valid_points t2.valid_points),
   List.zipWith (· && ·) t1.valid_points t2.valid_points)

/-- Boolean-mask selection `errors[mask]`. -/
def boolSelect {α : Type} (xs : List α) (mask : List Bool) : List α :=
  (List.zip xs mask).filterMap fun p => if p.2 then some p.1 else none

/-- `valid_reprojection_error(points1, points2)`. -/
noncomputable def valid_reprojection_error (t1 t2 : PointCol) : List ℝ :=
  boolSelect (reprojection_error t1 t2).1 (reprojection_error t1 t2).2

theorem boolSelect_eq_map_filter {α : Type} (d : α) :
    ∀ (xs : List α) (mask : List Bool), xs.length = mask.length →
    boolSelect xs mask =
      (((List.range xs.length).filter fun i => mask.getD i false).map
        fun i => xs.getD i d)
  | [], [], _ => rfl
  | [], _ :: _, h => by simp at h
  | _ :: _, [], h => by simp at h
  | x :: xs, m :: ms, h => by
    have hlen : xs.length = ms.length := by simpa using h
    have ih := boolSelect_eq_map_filter d xs ms hlen
    show List.filterMap (fun p => if p.2 then some p.1 else none)
      ((x, m) :: List.zip xs ms) = _
    rw [List.filterMap_cons, List.length_cons, List.range_succ_eq_map,
      List.filter_cons]
    have hfm : List.filter (fun i => (m :: ms).getD i false)
        ((List.range xs.length).map Nat.succ) =
        (List.filter (fun i => ms.getD i false) (List.range xs.length)).map
          Nat.succ := by
      rw [List.filter_map]
      rfl
    have hmm : ((List.filter (fun i => ms.getD i false)
        (List.range xs.length)).map Nat.succ).map
          (fun i => (x :: xs).getD i d) =
        (List.filter (fun i => ms.getD i false) (List.range xs.length)).map
          (fun i => xs.getD i d) := by
      rw [List.map_map]
      rfl
    cases m with
    | false =>
      show boolSelect xs ms = _
      rw [if_neg (by simp)]
      rw [hfm, hmm]
      exact ih
    | true =>
      show x :: boolSelect xs ms = _
      rw [if_pos (by simp)]
      rw [List.map_cons, hfm, hmm]
      show x :: boolSelect xs ms = (x :: xs).getD 0 d :: _
      rw [ih]
      rfl

/-- Claim C9: `reprojection_error` returns the AND of the two validity masks,
the Euclidean distance at every masked-true entry, exactly `0` at every
masked-false entry; for two identical tables every error is zero and the mask
equals the table's own validity mask; `valid_reprojection_error` returns
exactly the error values at the masked-true positions, in order. -/
theorem reprojection_error_spec (t1 t2 : PointCol)
    (h1 : t1.points.length = t1.valid_points.length)
    (h2 : t2.points.length = t2.valid_points.length)
    (hpt : t1.points.length = t2.points.length) :
    (reprojection_error t1 t2).2 =
      List.zipWith (· && ·) t1.valid_points t2.valid_points ∧
    (∀ i, (reprojection_error t1 t2).2.getD i false = true →
      (reprojection_error t1 t2).1.getD i 0 =
        pointDist (t1.points.getD i 0) (t2.points.getD i 0)) ∧
    (∀ i, (reprojection_error t1 t2).2.getD i false = false →
      (reprojection_error t1 t2).1.getD i 0 = 0) ∧
    (∀ t : PointCol, t.points.length = t.valid_points.length →
      (reprojection_error t t).2 = t.valid_points ∧
      ∀ i, (reprojection_error t t).1.getD i 0 = 0) ∧
    valid_reprojection_error t1 t2 =
      (((List.range (reprojection_error t1 t2).1.length).filter
        fun i => (reprojection_error t1 t2).2.getD i false).map
        fun i => (reprojection_error t1 t2).1.getD i 0) := by
  refine ⟨rfl, ?_, ?_, ?_, ?_⟩
  · intro i hmask
    have hilt : i < min t1.valid_points.length t2.valid_points.length := by
      by_contra hge
      rw [show (reprojection_error t1 t2).2 =
        List.zipWith (· && ·) t1.valid_points t2.valid_points from rfl] at hmask
      rw [getD_oob _ i false (by rw [List.length_zipWith]; omega)] at hmask
      exact Bool.false_ne_true hmask
    have hie : i < min (List.zipWith pointDist t1.points t2.points).length
        (List.zipWith (· && ·) t1.valid_points t2.valid_points).length := by
      rw [List.length_zipWith, List.length_zipWith]
      omega
    show (List.zipWith (fun e m => if m then e else 0)
      (List.zipWith pointDist t1.points t2.points)
      (List.zipWith (· && ·) t1.valid_points t2.valid_points)).getD i 0 = _
    rw [getD_zipWith _ _ _ i 0 0 false hie]
    rw [show (List.zipWith (· && ·) t1.valid_points t2.valid_points).getD i false =
      (reprojection_error t1 t2).2.getD i false from rfl, hmask]
    rw [getD_zipWith pointDist t1.points t2.points i 0 0 0 (by
      rw [List.length_zipWith] at hie
      omega)]
    rfl
  · intro i hmask
    by_cases hilt : i < min (List.zipWith pointDist t1.points t2.points).length
        (List.zipWith (· && ·) t1.valid_points t2.valid_points).length
    · show (List.zipWith (fun e m => if m then e else 0)
        (List.zipWith pointDist t1.points t2.points)
        (List.zipWith (· && ·) t1.valid_points t2.valid_points)).getD i 0 = 0
      rw [getD_zipWith _ _ _ i 0 0 false hilt]
      rw [show (List.zipWith (· && ·) t1.valid_points t2.valid_points).getD i false =
        (reprojection_error t1 t2).2.getD i false from rfl, hmask]
      rfl
    · refine getD_oob _ i 0 ?_
      show (List.zipWith (fun e m => if m then e else 0)
        (List.zipWith pointDist t1.points t2.points)
        (List.zipWith (· && ·) t1.valid_points t2.valid_points)).length ≤ i
      simp only [List.length_zipWith] at hilt ⊢
      omega
  · intro t ht
    constructor
    · show List.zipWith (· && ·) t.valid_points t.valid_points = t.valid_points
      rw [List.zipWith_same]
      exact (List.map_congr_left fun a _ => Bool.and_self a).trans
        (List.map_id t.valid_points)
    · intro i
      by_cases hilt : i < min (List.zipWith pointDist t.points t.points).length
          (List.zipWith (· && ·) t.valid_points t.valid_points).length
      · show (List.zipWith (fun e m => if m then e else 0)
          (List.zipWith pointDist t.points t.points)
          (List.zipWith (· && ·) t.valid_points t.valid_points)).getD i 0 = 0
        rw [getD_zipWith _ _ _ i 0 0 false hilt]
        have hd : (List.zipWith pointDist t.points t.points).getD i 0 = 0 := by
          rw [List.zipWith_same]
          have hip : i < t.points.length := by
            rw [List.length_zipWith] at hilt
            omega
          rw [getD_map t.points _ i 0 0 hip]
          show pointDist (t.points.getD i 0) (t.points.getD i 0) = 0
          rw [pointDist, sub_self]
          norm_num
        rw [hd]
        cases (List.zipWith (· && ·) t.valid_points t.valid_points).getD i false <;> rfl
      · refine getD_oob _ i 0 ?_
        show (List.zipWith (fun e m => if m then e else 0)
          (List.zipWith pointDist t.points t.points)
          (List.zipWith (· && ·) t.valid_points t.valid_points)).length ≤ i
        simp only [List.length_zipWith] at hilt ⊢
        omega
  · refine boolSelect_eq_map_filter 0 _ _ ?_
    show (List.zipWith (fun e m => if m then e else 0)
      (List.zipWith pointDist t1.points t2.points)
      (List.zipWith (· && ·) t1.valid_points t2.valid_points)).length =
      (List.zipWith (· && ·) t1.valid_points t2.valid_points).length
    rw [List.length_zipWith, List.length_zipWith, List.length_zipWith]
    omega

/-- Concrete point tables for the C9 witness. -/
def ptsC9A : PointCol := ⟨[fun _ => 0, fun _ => 1], [true, false]⟩

/-- See `ptsC9A`. -/
def ptsC9B : PointCol := ⟨[fun _ => 0, fun _ => 3], [true, true]⟩

/-- Witness for C9 at the concrete tables above. -/
theorem reprojection_error_spec_witness :
    (reprojection_error ptsC9A ptsC9B).2 =
      List.zipWith (· && ·) ptsC9A.valid_points ptsC9B.valid_points ∧
    (∀ i, (reprojection_error ptsC9A ptsC9B).2.getD i false = true →
      (reprojection_error ptsC9A ptsC9B).1.getD i 0 =
        pointDist (ptsC9A.points.getD i 0) (ptsC9B.points.getD i 0)) ∧
    (∀ i, (reprojection_error ptsC9A ptsC9B).2.getD i false = false →
      (reprojection_error ptsC9A ptsC9B).1.getD i 0 = 0) ∧
    (∀ t : PointCol, t.points.length = t.valid_points.length →
      (reprojection_error t t).2 = t.valid_points ∧
      ∀ i, (reprojection_error t t).1.getD i 0 = 0) ∧
    valid_reprojection_error ptsC9A ptsC9B =
      (((List.range (reprojection_error ptsC9A ptsC9B).1.length).filter
        fun i => (reprojection_error ptsC9A ptsC9B).2.getD i false).map
        fun i => (reprojection_error ptsC9A ptsC9B).1.getD i 0) :=
  reprojection_error_spec ptsC9A ptsC9B rfl rfl rfl

/-! ### `stereo_calibrate` (claim C10) -/

/-- The possible outcomes of a (fuel-bounded) `stereo_calibrate` call:
a returned value, a Python `TypeError`, or an execution cut off by the fuel
bound (the marker of divergence). -/
inductive StereoOutcome (V : Type) where
  | ok : V → StereoOutcome V
  | typeError : StereoOutcome V
  | outOfFuel : StereoOutcome V
deriving DecidableEq

/-- `stereo_calibrate(points, board, cameras, i, j, **kwargs)`.

The trailing required positional parameters `cameras, i, j` are modelled as
an `Option` (`none` = not supplied by the caller, which Python rejects with
`TypeError` during call binding, before the body runs).  The body computes
`matching = matching_points(points, board, i, j)` (the opaque parameter
`matching`) and re-invokes itself as
`stereo_calibrate((cameras[i], cameras[j]), matching, **kwargs)` — only two
positional arguments (the camera pair is the opaque `pairOf`).  `fuel`
bounds the recursion depth; `outOfFuel` marks a computation cut off by it. -/
def stereo_calibrate {V : Type} (matching : V → V → Nat → Nat → V)
    (pairOf : V → Nat → Nat → V) :
    Nat → V → V → Option (V × Nat × Nat) → StereoOutcome V :=
  fun fuel points board rest =>
    match rest, fuel with
    | none, _ => .typeError
    | some _, 0 => .outOfFuel
    | some (cameras, i, j), fuel + 1 =>
      stereo_calibrate matching pairOf fuel (pairOf cameras i j)
        (matching points board i j) none

/-- Counterexample to claim C10 as stated: a concrete fully-applied call does
NOT run forever.  The unconditional self-call passes only two of the five
required positional arguments, so Python raises `TypeError` when binding the
first recursive call: with fuel 2 the outcome is `typeError`, not the
`outOfFuel` marker that an infinite recursion would produce at every fuel
bound. -/
theorem stereo_calibrate_terminates :
    stereo_calibrate (fun a b i j => a + b + i + j) (fun c i j => c + i + j)
      2 0 0 (some (0, 1, 2)) = StereoOutcome.typeError ∧
    StereoOutcome.typeError ≠ (StereoOutcome.outOfFuel : StereoOutcome Nat) :=
  ⟨by rw [stereo_calibrate, stereo_calibrate], by decide⟩

/-- Claim C10 (amended): after computing the matched points,
`stereo_calibrate` unconditionally re-invokes itself as its only action; the
self-call passes only two positional arguments and omits the required
`cameras, i, j`, so every fully-applied invocation raises `TypeError` at the
first recursive call (for any positive fuel), and no invocation — however
much fuel — ever returns a result. -/
theorem stereo_calibrate_spec {V : Type} (matching : V → V → Nat → Nat → V)
    (pairOf : V → Nat → Nat → V) :
    (∀ (fuel : Nat) (points board cameras : V) (i j : Nat),
      stereo_calibrate matching pairOf (fuel + 1) points board
        (some (cameras, i, j)) = StereoOutcome.typeError) ∧
    (∀ (fuel : Nat) (points board : V) (rest : Option (V × Nat × Nat)) (v : V),
      stereo_calibrate matching pairOf fuel points board rest ≠
        StereoOutcome.ok v) := by
  constructor
  · intro fuel points board cameras i j
    rw [stereo_calibrate, stereo_calibrate]
  · intro fuel points board rest v
    cases rest with
    | none => simp [stereo_calibrate]
    | some r =>
      obtain ⟨c, i, j⟩ := r
      cases fuel with
      | zero => simp [stereo_calibrate]
      | succ fuel => simp [stereo_calibrate]

end Multical
